import Mathlib

/-!
Shallow embedding of `src/todo.py` (a single-file command-line to-do list
manager) and proofs about it.

Modelling conventions:
* A Python task dict `{"id", "task", "done", "created_at", "completed_at"}`
  becomes the structure `Task`.  Task ids are Python ints, modelled as `Int`
  (the CLI can hand negative ints to the lookup operations).
* `datetime.now().strftime(...)` is abstracted as reading a monotone clock:
  operations that call `datetime.now()` take the current clock value
  (a `Nat`) and return the advanced clock.  Timestamp formatting is not
  modelled; a timestamp is the `Nat` that was read.
* `console.print(...)` calls are modelled as a returned list of the printed
  strings (with their rich markup, as in the source).
* In-place mutation of the Python list / of a found dict becomes explicit
  state passing: each operation returns the new list of tasks.
* Python `int(value)` (as used by `argparse` `type=int` and by
  `valid_positive_integer`) is modelled by `parse_int`: an optional sign
  followed by one or more decimal digits; anything else raises `ValueError`,
  i.e. returns `none`.
* The f-string `f"{original_task_name} ({counter})"` uses the decimal
  representation of `counter`; `natRepr` is the decimal printer used by the
  model (fuel-based, and proved equal to the `Nat.digits`-based form so that
  its arithmetic properties are available).
* Python's `str.lower()` is modelled by `strLower`, lowercasing character by
  character, and the substring test `in` by `strContains`.
-/

namespace TodoCli

/-- One task record, as stored in `todo_list.json`:
`{"id": ..., "task": ..., "done": ..., "created_at": ..., "completed_at": ...}`. -/
structure Task where
  id : Int
  task : String
  done : Bool
  created_at : Nat
  completed_at : Option Nat
deriving Repr, DecidableEq

/-- Decimal digit characters of `n`, most significant first.  Fuel-based
structural recursion (fuel `n` itself always suffices, proved below) so that
it also evaluates by kernel reduction. -/
def natReprAux : Nat → Nat → List Char
  | 0, _ => []
  | _, 0 => []
  | fuel + 1, n + 1 => natReprAux fuel ((n + 1) / 10) ++ [Nat.digitChar ((n + 1) % 10)]

/-- Decimal representation of a natural number (the `{counter}` of the
f-string in `add_todos`). -/
def natRepr (n : Nat) : String :=
  if n = 0 then "0" else String.mk (natReprAux n n)

/-- `f"{original_task_name} ({counter})"` from `add_todos`. -/
def mkSuffix (orig : String) (counter : Nat) : String :=
  orig ++ " (" ++ natRepr counter ++ ")"

/-- `any(todo["task"] == task_name_to_add for todo in todos)`. -/
def hasLabel (todos : List Task) (name : String) : Bool :=
  todos.any (fun todo => todo.task == name)

/-- The `while` loop of `add_todos`, with explicit fuel: as long as the
candidate name collides, try `orig (counter)` with the next counter.
`resolveName` supplies enough fuel (`todos.length + 1` checks always reach a
free candidate, proved below). -/
def resolveLoop (todos : List Task) (orig : String) (cand : String) (counter : Nat) : Nat → String
  | 0 => cand
  | fuel + 1 =>
    if hasLabel todos cand then
      resolveLoop todos orig (mkSuffix orig counter) (counter + 1) fuel
    else cand

/-- Duplicate-name resolution of `add_todos`: the first of
`orig, orig (1), orig (2), ...` that is not a current task label. -/
def resolveName (todos : List Task) (orig : String) : String :=
  resolveLoop todos orig orig 1 (todos.length + 1)

/-- `max((todo["id"] for todo in todos), default=0)`. -/
def maxId (todos : List Task) : Int :=
  match todos with
  | [] => 0
  | t :: ts => ts.foldl (fun m u => max m u.id) t.id

/-- `find_todo_by_id`: the first record whose `id` matches, or none. -/
def find_todo_by_id (todos : List Task) (todo_id : Int) : Option Task :=
  todos.find? (fun todo => todo.id == todo_id)

/-- Replace the first record with the given id by `f` of it (the functional
rendering of mutating the dict returned by `find_todo_by_id` in place). -/
def updateFirst (todos : List Task) (todo_id : Int) (f : Task → Task) : List Task :=
  match todos with
  | [] => []
  | t :: ts => if t.id == todo_id then f t :: ts else t :: updateFirst ts todo_id f

/-- One iteration of the `for new_task_name in new_tasks` loop of
`add_todos`: resolve a unique name, assign `max id + 1`, append, print a
confirmation.  Returns (new list, new clock, printed lines). -/
def addOne (todos : List Task) (new_task_name : String) (clock : Nat) :
    List Task × Nat × List String :=
  let task_name_to_add := resolveName todos new_task_name
  let new_id := maxId todos + 1
  (todos ++ [⟨new_id, task_name_to_add, false, clock, none⟩], clock + 1,
    ["[bold green]Added task:[/bold green] \"" ++ task_name_to_add ++ "\""])

/-- `add_todos`: add each new task in order; each appended record immediately
affects duplicate resolution and max-id computation for the following ones. -/
def add_todos (todos : List Task) (new_tasks : List String) (clock : Nat) :
    List Task × Nat × List String :=
  match new_tasks with
  | [] => (todos, clock, [])
  | name :: rest =>
    let step := addOne todos name clock
    let next := add_todos step.1 rest step.2.1
    (next.1, next.2.1, step.2.2 ++ next.2.2)

/-- `f"[bold red]Task with ID {todo_id} not found.[/bold red]"`. -/
def notFoundMsg (todo_id : Int) : String :=
  "[bold red]Task with ID " ++ toString todo_id ++ " not found.[/bold red]"

/-- `repeat_task`: add `count` copies of the source task's current name via
`add_todos`; false if the source id is not found.
Returns (took action, new list, new clock, printed lines). -/
def repeat_task (todos : List Task) (todo_id : Int) (repeat_count : Nat) (clock : Nat) :
    Bool × List Task × Nat × List String :=
  match find_todo_by_id todos todo_id with
  | none => (false, todos, clock, [notFoundMsg todo_id])
  | some original_todo =>
    let tasks_to_add := List.replicate repeat_count original_todo.task
    let step := add_todos todos tasks_to_add clock
    (true, step.1, step.2.1, step.2.2 ++
      ["[bold green]Task \"" ++ original_todo.task ++ "\" repeated " ++
        natRepr repeat_count ++ " times.[/bold green]"])

/-- `remove_todo`: remove the found record (`todos.remove` deletes the first
value-equal element), or report not found. -/
def remove_todo (todos : List Task) (todo_id : Int) : Bool × List Task × List String :=
  match find_todo_by_id todos todo_id with
  | some todo_to_remove =>
    (true, todos.erase todo_to_remove,
      ["[bold green]Removed task:[/bold green] \"" ++ todo_to_remove.task ++ "\""])
  | none => (false, todos, [notFoundMsg todo_id])

/-- `remove_all_todos`: clear the list; false (and "already empty") on an
empty list. -/
def remove_all_todos (todos : List Task) : Bool × List Task × List String :=
  if todos.isEmpty then
    (false, todos, ["[bold yellow]To-do list is already empty.[/bold yellow]"])
  else
    (true, [], ["[bold green]All tasks have been removed.[/bold green]"])

/-- `complete_todo`: mark the first record with the id as completed (reading
the clock), or report "already completed", or "not found". -/
def complete_todo (todos : List Task) (todo_id : Int) (clock : Nat) :
    Bool × List Task × Nat × List String :=
  match find_todo_by_id todos todo_id with
  | some todo_to_update =>
    if !todo_to_update.done then
      (true,
        updateFirst todos todo_id (fun u => { u with done := true, completed_at := some clock }),
        clock + 1,
        ["[bold green]Task \"" ++ todo_to_update.task ++ "\" marked as completed.[/bold green]"])
    else
      (true, todos, clock,
        ["[bold yellow]Task \"" ++ todo_to_update.task ++ "\" is already completed.[/bold yellow]"])
  | none => (false, todos, clock, [notFoundMsg todo_id])

/-- `complete_all_todos`: one shared `now` for every record completed in the
call; false on an empty list. -/
def complete_all_todos (todos : List Task) (clock : Nat) :
    Bool × List Task × Nat × List String :=
  if todos.isEmpty then
    (false, todos, clock,
      ["[bold yellow]To-do list is empty. No tasks to complete.[/bold yellow]"])
  else
    (true,
      todos.map (fun todo =>
        if !todo.done then { todo with done := true, completed_at := some clock } else todo),
      clock + 1,
      ["[bold green]All tasks have been marked as completed.[/bold green]"])

/-- `pending_todo`: mark the first record with the id as pending, or report
"already pending", or "not found". -/
def pending_todo (todos : List Task) (todo_id : Int) : Bool × List Task × List String :=
  match find_todo_by_id todos todo_id with
  | some todo_to_update =>
    if todo_to_update.done then
      (true,
        updateFirst todos todo_id (fun u => { u with done := false, completed_at := none }),
        ["[bold green]Task \"" ++ todo_to_update.task ++ "\" marked as pending.[/bold green]"])
    else
      (true, todos,
        ["[bold yellow]Task \"" ++ todo_to_update.task ++ "\" is already pending.[/bold yellow]"])
  | none => (false, todos, [notFoundMsg todo_id])

/-- `pending_all_todos`: set every record to `done=False, completed_at=None`;
false on an empty list. -/
def pending_all_todos (todos : List Task) : Bool × List Task × List String :=
  if todos.isEmpty then
    (false, todos,
      ["[bold yellow]To-do list is empty. No tasks to mark as pending.[/bold yellow]"])
  else
    (true,
      todos.map (fun todo => { todo with done := false, completed_at := none }),
      ["[bold green]All tasks have been marked as pending.[/bold green]"])

/-- `update_todo`: replace the `task` name of the first record with the id
in place; no uniqueness re-check. -/
def update_todo (todos : List Task) (todo_id : Int) (new_name : String) :
    Bool × List Task × List String :=
  match find_todo_by_id todos todo_id with
  | some todo_to_update =>
    (true, updateFirst todos todo_id (fun u => { u with task := new_name }),
      ["[bold green]Task name updated from \"" ++ todo_to_update.task ++ "\" to \"" ++
        new_name ++ "\".[/bold green]"])
  | none => (false, todos, [notFoundMsg todo_id])

/-- Python's substring test `needle in hay` on strings. -/
def strContains (hay needle : String) : Bool :=
  decide (needle.data <:+: hay.data)

/-- Python's `str.lower()`: lowercase character by character. -/
def strLower (s : String) : String :=
  String.mk (s.data.map Char.toLower)

/-- The outcome of `list_todos`: the empty-list message, the
no-tasks-found message, or the table rows (in order). -/
inductive ListResult where
  | emptyList : ListResult
  | noTasksFound : ListResult
  | table : List Task → ListResult
deriving Repr, DecidableEq

/-- `list_todos`: status filter, then search filter (`if search_term:` treats
`None` and the empty string alike), then render or report an empty state. -/
def list_todos (todos : List Task) (filter_status : Option String := none)
    (search_term : Option String := none) : ListResult :=
  if todos.isEmpty then ListResult.emptyList
  else
    let filtered1 :=
      if filter_status == some "completed" then todos.filter (fun todo => todo.done)
      else if filter_status == some "pending" then todos.filter (fun todo => !todo.done)
      else todos
    let filtered2 :=
      match search_term with
      | some term =>
        if term ≠ "" then
          filtered1.filter (fun todo => strContains (strLower todo.task) (strLower term))
        else filtered1
      | none => filtered1
    if filtered2.isEmpty then ListResult.noTasksFound
    else ListResult.table filtered2

/-- One or more decimal digits, read as a number (helper for `parse_int`). -/
def parseDigits (cs : List Char) : Option Nat :=
  match cs with
  | [] => none
  | _ =>
    if cs.all (fun c => c.isDigit) then
      some (cs.foldl (fun acc c => 10 * acc + (c.toNat - '0'.toNat)) 0)
    else none

/-- Python `int(value)` on a string: optional sign, then decimal digits;
`none` models `ValueError`. -/
def parse_int (value : String) : Option Int :=
  match value.data with
  | '-' :: rest => (parseDigits rest).map (fun n => -(n : Int))
  | '+' :: rest => (parseDigits rest).map (fun n => (n : Int))
  | l => (parseDigits l).map (fun n => (n : Int))

/-- `valid_positive_integer`: `int(value)`, then reject values `< 1`.
`Except.error` carries the `ArgumentTypeError` message. -/
def valid_positive_integer (value : String) : Except String Int :=
  match parse_int value with
  | none => Except.error ("Value must be an integer, got " ++ value)
  | some ivalue =>
    if ivalue < 1 then
      Except.error ("Value must be a positive integer, got " ++ value)
    else Except.ok ivalue

/-- Outcome of one `main` invocation for an action branch:
`usageError` is argparse rejecting an argument during parsing (exit status 2,
nothing else runs); `validationError` is the caught `ArgumentTypeError` of
the `--update`/`--repeat` branches (exit status 1, no core call, no save);
`ok taken todos msgs` is a completed branch (exit status 0): `action_taken`,
the saved list, and the printed lines. -/
inductive RunResult where
  | usageError : RunResult
  | validationError : String → RunResult
  | ok : Bool → List Task → List String → RunResult
deriving Repr, DecidableEq

/-- The process exit status of each outcome. -/
def RunResult.exitCode : RunResult → Nat
  | usageError => 2
  | validationError _ => 1
  | ok _ _ _ => 0

/-- The `--remove` branch of `main`: argparse converts every raw token with
`type=int` (no positivity check), then `remove_todo` runs per id, or-ing
`action_taken`. -/
def run_remove (todos : List Task) (raw : List String) : RunResult :=
  match raw.mapM parse_int with
  | none => RunResult.usageError
  | some ids =>
    let final := ids.foldl
      (fun acc todo_id =>
        let step := remove_todo acc.2.1 todo_id
        (step.1 || acc.1, step.2.1, acc.2.2 ++ step.2.2))
      (false, todos, [])
    RunResult.ok final.1 final.2.1 final.2.2

/-- The `--complete` branch of `main`: `type=int` conversion, then
`complete_todo` per id. -/
def run_complete (todos : List Task) (raw : List String) (clock : Nat) : RunResult :=
  match raw.mapM parse_int with
  | none => RunResult.usageError
  | some ids =>
    let final := ids.foldl
      (fun acc todo_id =>
        let step := complete_todo acc.2.1 todo_id acc.2.2.1
        (step.1 || acc.1, step.2.1, step.2.2.1, acc.2.2.2 ++ step.2.2.2))
      (false, todos, clock, [])
    RunResult.ok final.1 final.2.1 final.2.2.2

/-- The `--pending` branch of `main`: `type=int` conversion, then
`pending_todo` per id. -/
def run_pending (todos : List Task) (raw : List String) : RunResult :=
  match raw.mapM parse_int with
  | none => RunResult.usageError
  | some ids =>
    let final := ids.foldl
      (fun acc todo_id =>
        let step := pending_todo acc.2.1 todo_id
        (step.1 || acc.1, step.2.1, acc.2.2 ++ step.2.2))
      (false, todos, [])
    RunResult.ok final.1 final.2.1 final.2.2

/-- The `--update` branch of `main`: `valid_positive_integer` on the id
token inside `try`, exiting 1 on `ArgumentTypeError`. -/
def run_update (todos : List Task) (raw_id new_name : String) : RunResult :=
  match valid_positive_integer raw_id with
  | Except.error e => RunResult.validationError e
  | Except.ok todo_id =>
    let step := update_todo todos todo_id new_name
    RunResult.ok step.1 step.2.1 step.2.2

/-- The `--repeat` branch of `main`: `valid_positive_integer` on both
tokens inside `try`, exiting 1 on `ArgumentTypeError`. -/
def run_repeat (todos : List Task) (raw_id raw_count : String) (clock : Nat) : RunResult :=
  match valid_positive_integer raw_id with
  | Except.error e => RunResult.validationError e
  | Except.ok todo_id =>
    match valid_positive_integer raw_count with
    | Except.error e => RunResult.validationError e
    | Except.ok count =>
      let step := repeat_task todos todo_id count.toNat clock
      RunResult.ok step.1 step.2.1 step.2.2.2

/-- The `--add` branch of `main`: no validation of the task names at all;
`add_todos` runs and `action_taken` is set. -/
def run_add (todos : List Task) (names : List String) (clock : Nat) : RunResult :=
  let step := add_todos todos names clock
  RunResult.ok true step.1 step.2.2

/-- One store-mutating command, as dispatched by `main`. -/
inductive Op where
  | add (names : List String)
  | remove (todo_id : Int)
  | removeAll
  | complete (todo_id : Int)
  | completeAll
  | pending (todo_id : Int)
  | pendingAll
  | update (todo_id : Int) (new_name : String)
  | rep (todo_id : Int) (count : Nat)
deriving Repr, DecidableEq

/-- Apply one command to (store, clock). -/
def applyOp (s : List Task × Nat) (op : Op) : List Task × Nat :=
  match op with
  | Op.add names => let r := add_todos s.1 names s.2; (r.1, r.2.1)
  | Op.remove i => ((remove_todo s.1 i).2.1, s.2)
  | Op.removeAll => ((remove_all_todos s.1).2.1, s.2)
  | Op.complete i => let r := complete_todo s.1 i s.2; (r.2.1, r.2.2.1)
  | Op.completeAll => let r := complete_all_todos s.1 s.2; (r.2.1, r.2.2.1)
  | Op.pending i => ((pending_todo s.1 i).2.1, s.2)
  | Op.pendingAll => ((pending_all_todos s.1).2.1, s.2)
  | Op.update i name => ((update_todo s.1 i name).2.1, s.2)
  | Op.rep i count => let r := repeat_task s.1 i count s.2; (r.2.1, r.2.2.1)

/-- The store (and clock) reached from the empty store by a command
sequence. -/
def reach (ops : List Op) : List Task × Nat :=
  ops.foldl applyOp ([], 0)

end TodoCli
namespace TodoCli

/-! ### Properties of the decimal printer and the suffix scheme -/

/-- Read the decimal string back (left inverse of `natRepr`). -/
def unRepr (s : String) : Nat :=
  Nat.ofDigits 10 ((s.data.map (fun c => c.toNat - 48)).reverse)

lemma digitChar_val {d : Nat} (h : d < 10) : (Nat.digitChar d).toNat - 48 = d := by
  interval_cases d <;> rfl

lemma natReprAux_eq :
    ∀ fuel n : Nat, n ≤ fuel →
      natReprAux fuel n = ((Nat.digits 10 n).reverse).map Nat.digitChar := by
  intro fuel
  induction fuel with
  | zero =>
    intro n hn
    interval_cases n
    simp [natReprAux]
  | succ f ih =>
    intro n hn
    match n with
    | 0 => simp [natReprAux]
    | m + 1 =>
      rw [natReprAux]
      have hdiv : (m + 1) / 10 ≤ f := by
        have := Nat.div_lt_self (Nat.succ_pos m) (by norm_num : 1 < 10)
        omega
      rw [ih ((m + 1) / 10) hdiv]
      rw [Nat.digits_def' (by norm_num : (1 : Nat) < 10) (Nat.succ_pos m)]
      simp

lemma unRepr_natRepr (n : Nat) : unRepr (natRepr n) = n := by
  by_cases h : n = 0
  · subst h; rfl
  · unfold natRepr unRepr
    rw [if_neg h]
    show Nat.ofDigits 10 (((natReprAux n n).map fun c => c.toNat - 48).reverse) = n
    rw [natReprAux_eq n n le_rfl]
    simp only [List.map_map, List.map_reverse, List.reverse_reverse]
    have hmap : (Nat.digits 10 n).map ((fun c => c.toNat - 48) ∘ Nat.digitChar)
        = (Nat.digits 10 n).map id := by
      refine List.map_congr_left (fun d hd => ?_)
      exact digitChar_val (Nat.digits_lt_base (by norm_num) hd)
    rw [hmap, List.map_id, Nat.ofDigits_digits]

lemma natRepr_inj {m n : Nat} (h : natRepr m = natRepr n) : m = n := by
  rw [← unRepr_natRepr m, h, unRepr_natRepr]

lemma mkSuffix_inj {orig : String} {i j : Nat} (h : mkSuffix orig i = mkSuffix orig j) :
    i = j := by
  unfold mkSuffix at h
  have hd := congrArg String.data h
  simp only [String.data_append, List.append_assoc] at hd
  exact natRepr_inj (String.ext
    (List.append_cancel_right (List.append_cancel_left (List.append_cancel_left hd))))

lemma mkSuffix_ne_orig (orig : String) (n : Nat) : mkSuffix orig n ≠ orig := by
  intro h
  have hl := congrArg String.length h
  have h2 : (" (" : String).length = 2 := rfl
  have h3 : (")" : String).length = 1 := rfl
  simp only [mkSuffix, String.length_append, h2, h3] at hl
  omega

/-! ### Correctness of the duplicate-name resolution loop -/

/-- The candidate sequence of the `while` loop: the original name, then
`orig (1)`, `orig (2)`, ... -/
def cand (orig : String) : Nat → String
  | 0 => orig
  | k + 1 => mkSuffix orig (k + 1)

lemma cand_inj {orig : String} {i j : Nat} (h : cand orig i = cand orig j) : i = j := by
  match i, j with
  | 0, 0 => rfl
  | 0, k + 1 => exact absurd h.symm (mkSuffix_ne_orig orig (k + 1))
  | k + 1, 0 => exact absurd h (mkSuffix_ne_orig orig (k + 1))
  | k + 1, l + 1 => exact mkSuffix_inj h

/-- Labels actually present in the store, as a Boolean membership. -/
lemma hasLabel_iff {todos : List Task} {s : String} :
    hasLabel todos s = true ↔ ∃ t ∈ todos, t.task = s := by
  simp [hasLabel, List.any_eq_true, beq_iff_eq]

/-- If every candidate the loop will check (from index `k` up to but not
including `m`) collides and candidate `m` is free, then with enough fuel
the loop starting at index `k` returns candidate `m`. -/
lemma resolveLoop_spec (todos : List Task) (orig : String) :
    ∀ (fuel k m : Nat), k ≤ m → m < k + fuel →
    (∀ j, k ≤ j → j < m → hasLabel todos (cand orig j) = true) →
    hasLabel todos (cand orig m) = false →
    resolveLoop todos orig (cand orig k) (k + 1) fuel = cand orig m := by
  intro fuel
  induction fuel with
  | zero => intro k m hkm hlt _ _; omega
  | succ f ih =>
    intro k m hkm hlt hcoll hfree
    rcases Nat.eq_or_lt_of_le hkm with heq | hlt2
    · subst heq
      simp [resolveLoop, hfree]
    · have hk : hasLabel todos (cand orig k) = true := hcoll k le_rfl hlt2
      have : mkSuffix orig (k + 1) = cand orig (k + 1) := rfl
      simp only [resolveLoop, hk, if_true, this]
      exact ih (k + 1) m hlt2 (by omega) (fun j hj1 hj2 => hcoll j (by omega) hj2) hfree

/-- Pigeonhole: some candidate with index at most `todos.length` is free. -/
lemma exists_free_cand (todos : List Task) (orig : String) :
    ∃ m, m ≤ todos.length ∧ hasLabel todos (cand orig m) = false := by
  by_contra hall
  push_neg at hall
  have hall2 : ∀ m, m ≤ todos.length → hasLabel todos (cand orig m) = true := by
    intro m hm
    have := hall m hm
    cases h : hasLabel todos (cand orig m) with
    | true => rfl
    | false => exact absurd h this
  have hmaps : ∀ a ∈ Finset.range (todos.length + 1),
      cand orig a ∈ (todos.map Task.task).toFinset := by
    intro a ha
    rw [Finset.mem_range] at ha
    have := hall2 a (by omega)
    rw [hasLabel_iff] at this
    rcases this with ⟨t, ht, hteq⟩
    rw [List.mem_toFinset, List.mem_map]
    exact ⟨t, ht, hteq⟩
  have hcard : (todos.map Task.task).toFinset.card < (Finset.range (todos.length + 1)).card := by
    have h1 := List.toFinset_card_le (todos.map Task.task)
    rw [List.length_map] at h1
    rw [Finset.card_range]
    omega
  obtain ⟨x, _, y, _, hxy, heq⟩ :=
    Finset.exists_ne_map_eq_of_card_lt_of_maps_to hcard hmaps
  exact hxy (cand_inj heq)

/-- What `resolveName` returns: the first free candidate, which exists with
index at most `todos.length`. -/
lemma resolveName_spec (todos : List Task) (orig : String) :
    ∃ m, m ≤ todos.length ∧ resolveName todos orig = cand orig m ∧
      hasLabel todos (cand orig m) = false ∧
      ∀ j, j < m → hasLabel todos (cand orig j) = true := by
  have hex : ∃ m, hasLabel todos (cand orig m) = false := by
    obtain ⟨m, _, hm⟩ := exists_free_cand todos orig
    exact ⟨m, hm⟩
  set m0 := Nat.find hex with hm0
  obtain ⟨mw, hmw, hmwfree⟩ := exists_free_cand todos orig
  have hle : m0 ≤ todos.length := le_trans (Nat.find_min' hex hmwfree) hmw
  refine ⟨m0, hle, ?_, Nat.find_spec hex, ?_⟩
  · have : resolveLoop todos orig (cand orig 0) (0 + 1) (todos.length + 1) = cand orig m0 := by
      refine resolveLoop_spec todos orig (todos.length + 1) 0 m0 (Nat.zero_le _) (by omega) ?_
        (Nat.find_spec hex)
      intro j _ hj
      have := Nat.find_min hex hj
      cases h : hasLabel todos (cand orig j) with
      | true => rfl
      | false => exact absurd h this
    exact this
  · intro j hj
    have := Nat.find_min hex hj
    cases h : hasLabel todos (cand orig j) with
    | true => rfl
    | false => exact absurd h this

/-- The resolved name never collides with a current label. -/
lemma resolveName_fresh (todos : List Task) (orig : String) :
    hasLabel todos (resolveName todos orig) = false := by
  obtain ⟨m, _, heq, hfree, _⟩ := resolveName_spec todos orig
  rw [heq]; exact hfree

/-- A non-colliding proposed name is kept as is. -/
lemma resolveName_eq_of_fresh {todos : List Task} {orig : String}
    (h : hasLabel todos orig = false) : resolveName todos orig = orig := by
  unfold resolveName
  simp [resolveLoop, h]

/-- A colliding proposed name gets the smallest unused `(n)` suffix. -/
lemma resolveName_of_collision {todos : List Task} {orig : String}
    (h : hasLabel todos orig = true) :
    ∃ n, 1 ≤ n ∧ resolveName todos orig = mkSuffix orig n ∧
      hasLabel todos (mkSuffix orig n) = false ∧
      ∀ j, 1 ≤ j → j < n → hasLabel todos (mkSuffix orig j) = true := by
  obtain ⟨m, _, heq, hfree, hcoll⟩ := resolveName_spec todos orig
  match m, heq, hfree, hcoll with
  | 0, heq, hfree, hcoll => rw [show cand orig 0 = orig from rfl] at hfree; rw [h] at hfree; cases hfree
  | n + 1, heq, hfree, hcoll =>
    refine ⟨n + 1, by omega, heq, hfree, ?_⟩
    intro j hj1 hj2
    have := hcoll j hj2
    match j, hj1, this with
    | k + 1, _, hthis => exact hthis

end TodoCli
namespace TodoCli

/-! ### Bounds for `maxId` -/

lemma le_foldl_max (ts : List Task) (b : Int) :
    b ≤ ts.foldl (fun m u => max m u.id) b := by
  induction ts generalizing b with
  | nil => exact le_rfl
  | cons u ts ih =>
    exact le_trans (le_max_left b u.id) (ih (max b u.id))

lemma mem_le_foldl_max {u : Task} (ts : List Task) (b : Int) (h : u ∈ ts) :
    u.id ≤ ts.foldl (fun m v => max m v.id) b := by
  induction ts generalizing b with
  | nil => cases h
  | cons t ts ih =>
    rcases List.mem_cons.mp h with heq | hmem
    · subst heq
      exact le_trans (le_max_right b u.id) (le_foldl_max ts (max b u.id))
    · exact ih (max b t.id) hmem

lemma le_maxId {t : Task} {todos : List Task} (h : t ∈ todos) : t.id ≤ maxId todos := by
  cases todos with
  | nil => cases h
  | cons u ts =>
    rcases List.mem_cons.mp h with heq | hmem
    · subst heq; exact le_foldl_max ts t.id
    · exact mem_le_foldl_max ts u.id hmem

lemma maxId_nonneg {todos : List Task} (h : ∀ t ∈ todos, 1 ≤ t.id) : 0 ≤ maxId todos := by
  cases todos with
  | nil => exact le_rfl
  | cons u ts =>
    have h1 : 1 ≤ u.id := h u (List.mem_cons_self u ts)
    have := le_foldl_max ts u.id
    show (0 : Int) ≤ ts.foldl (fun m v => max m v.id) u.id
    omega

/-! ### The store invariant preserved by every operation -/

/-- Invariant of every store reachable from the empty store: ids are
positive, ids are pairwise distinct, and `completed_at` is non-null exactly
for completed records. -/
def StoreInv (todos : List Task) : Prop :=
  (∀ t ∈ todos, 1 ≤ t.id) ∧ ((todos.map Task.id).Nodup) ∧
    (∀ t ∈ todos, (t.completed_at ≠ none ↔ t.done = true))

lemma storeInv_nil : StoreInv [] := by
  refine ⟨?_, ?_, ?_⟩ <;> simp [StoreInv]

lemma storeInv_addOne {todos : List Task} (h : StoreInv todos) (name : String) (clock : Nat) :
    StoreInv (addOne todos name clock).1 := by
  obtain ⟨hpos, hnodup, hdone⟩ := h
  refine ⟨?_, ?_, ?_⟩
  · intro t ht
    rcases List.mem_append.mp ht with hmem | hmem
    · exact hpos t hmem
    · have : t = ⟨maxId todos + 1, resolveName todos name, false, clock, none⟩ :=
        List.mem_singleton.mp hmem
      subst this
      have := maxId_nonneg hpos
      show (1 : Int) ≤ maxId todos + 1
      omega
  · show ((todos ++ [_]).map Task.id).Nodup
    rw [List.map_append]
    rw [List.nodup_append]
    refine ⟨hnodup, List.nodup_singleton _, ?_⟩
    intro a ha hb
    simp only [List.map_cons, List.map_nil, List.mem_singleton] at hb
    rcases List.mem_map.mp ha with ⟨t, ht, hta⟩
    have hle := le_maxId ht
    rw [hta] at hle
    subst hb
    omega
  · intro t ht
    rcases List.mem_append.mp ht with hmem | hmem
    · exact hdone t hmem
    · have : t = ⟨maxId todos + 1, resolveName todos name, false, clock, none⟩ :=
        List.mem_singleton.mp hmem
      subst this
      simp

lemma storeInv_add_todos {todos : List Task} (h : StoreInv todos) (names : List String)
    (clock : Nat) : StoreInv (add_todos todos names clock).1 := by
  induction names generalizing todos clock with
  | nil => exact h
  | cons name rest ih =>
    exact ih (storeInv_addOne h name clock) _

lemma storeInv_sublist {l1 l2 : List Task} (hsub : l1.Sublist l2) (h : StoreInv l2) :
    StoreInv l1 := by
  obtain ⟨hpos, hnodup, hdone⟩ := h
  exact ⟨fun t ht => hpos t (hsub.subset ht),
    (hsub.map Task.id).nodup hnodup,
    fun t ht => hdone t (hsub.subset ht)⟩

lemma mem_updateFirst {todos : List Task} {i : Int} {f : Task → Task} {u : Task}
    (h : u ∈ updateFirst todos i f) : u ∈ todos ∨ ∃ t ∈ todos, u = f t := by
  induction todos with
  | nil => cases h
  | cons t ts ih =>
    by_cases hid : (t.id == i) = true
    · rw [updateFirst, if_pos hid] at h
      rcases List.mem_cons.mp h with heq | hmem
      · exact Or.inr ⟨t, List.mem_cons_self t ts, heq⟩
      · exact Or.inl (List.mem_cons_of_mem t hmem)
    · rw [updateFirst, if_neg hid] at h
      rcases List.mem_cons.mp h with heq | hmem
      · exact Or.inl (heq ▸ List.mem_cons_self t ts)
      · rcases ih hmem with hl | ⟨v, hv, hveq⟩
        · exact Or.inl (List.mem_cons_of_mem t hl)
        · exact Or.inr ⟨v, List.mem_cons_of_mem t hv, hveq⟩

lemma updateFirst_map_id {todos : List Task} {i : Int} {f : Task → Task}
    (hf : ∀ t, (f t).id = t.id) :
    (updateFirst todos i f).map Task.id = todos.map Task.id := by
  induction todos with
  | nil => rfl
  | cons t ts ih =>
    by_cases hid : (t.id == i) = true
    · rw [updateFirst, if_pos hid]
      simp [hf t, ih]
    · rw [updateFirst, if_neg hid]
      simp [ih]

lemma storeInv_updateFirst {todos : List Task} {i : Int} {f : Task → Task}
    (h : StoreInv todos) (hfid : ∀ t, (f t).id = t.id)
    (hfdone : ∀ t ∈ todos, ((f t).completed_at ≠ none ↔ (f t).done = true)) :
    StoreInv (updateFirst todos i f) := by
  obtain ⟨hpos, hnodup, hdone⟩ := h
  refine ⟨?_, ?_, ?_⟩
  · intro u hu
    rcases mem_updateFirst hu with hmem | ⟨t, ht, heq⟩
    · exact hpos u hmem
    · rw [heq, hfid t]; exact hpos t ht
  · rw [updateFirst_map_id hfid]; exact hnodup
  · intro u hu
    rcases mem_updateFirst hu with hmem | ⟨t, ht, heq⟩
    · exact hdone u hmem
    · rw [heq]; exact hfdone t ht

lemma storeInv_map {todos : List Task} {f : Task → Task} (h : StoreInv todos)
    (hfid : ∀ t, (f t).id = t.id)
    (hfdone : ∀ t ∈ todos, ((f t).completed_at ≠ none ↔ (f t).done = true)) :
    StoreInv (todos.map f) := by
  obtain ⟨hpos, hnodup, hdone⟩ := h
  refine ⟨?_, ?_, ?_⟩
  · intro u hu
    rcases List.mem_map.mp hu with ⟨t, ht, heq⟩
    rw [← heq, hfid t]; exact hpos t ht
  · rw [List.map_map]
    have : (Task.id ∘ f) = Task.id := funext hfid
    rw [this]; exact hnodup
  · intro u hu
    rcases List.mem_map.mp hu with ⟨t, ht, heq⟩
    rw [← heq]; exact hfdone t ht

lemma remove_store_sublist (todos : List Task) (i : Int) :
    ((remove_todo todos i).2.1).Sublist todos := by
  unfold remove_todo
  cases find_todo_by_id todos i with
  | none => exact List.Sublist.refl todos
  | some t => exact List.erase_sublist t todos

lemma storeInv_applyOp {s : List Task × Nat} (h : StoreInv s.1) (op : Op) :
    StoreInv (applyOp s op).1 := by
  cases op with
  | add names => exact storeInv_add_todos h names s.2
  | remove i => exact storeInv_sublist (remove_store_sublist s.1 i) h
  | removeAll =>
    show StoreInv (remove_all_todos s.1).2.1
    unfold remove_all_todos
    by_cases he : s.1.isEmpty <;> simp [he, h, storeInv_nil]
  | complete i =>
    show StoreInv (complete_todo s.1 i s.2).2.1
    unfold complete_todo
    cases find_todo_by_id s.1 i with
    | none => exact h
    | some t =>
      by_cases hd : t.done <;> simp only [hd, Bool.not_true, Bool.not_false, if_true, if_false]
      · exact h
      · exact storeInv_updateFirst h (fun u => rfl) (fun u _ => by simp)
  | completeAll =>
    show StoreInv (complete_all_todos s.1 s.2).2.1
    unfold complete_all_todos
    by_cases he : s.1.isEmpty
    · simp only [he, if_true]; exact h
    · simp only [he, if_false]
      refine storeInv_map h (fun t => ?_) (fun t ht => ?_)
      · by_cases hd : t.done <;> simp [hd]
      · by_cases hd : t.done
        · simpa [hd] using (h.2.2 t ht).mpr hd
        · simp [hd]
  | pending i =>
    show StoreInv (pending_todo s.1 i).2.1
    unfold pending_todo
    cases find_todo_by_id s.1 i with
    | none => exact h
    | some t =>
      by_cases hd : t.done <;> simp only [hd, if_true, if_false]
      · exact storeInv_updateFirst h (fun u => rfl) (fun u _ => by simp)
      · exact h
  | pendingAll =>
    show StoreInv (pending_all_todos s.1).2.1
    unfold pending_all_todos
    by_cases he : s.1.isEmpty
    · simp only [he, if_true]; exact h
    · simp only [he, if_false]
      exact storeInv_map h (fun t => rfl) (fun t _ => by simp)
  | update i name =>
    show StoreInv (update_todo s.1 i name).2.1
    unfold update_todo
    cases find_todo_by_id s.1 i with
    | none => exact h
    | some t =>
      exact storeInv_updateFirst h (fun u => rfl) (fun u hu => h.2.2 u hu)
  | rep i count =>
    show StoreInv (repeat_task s.1 i count s.2).2.1
    unfold repeat_task
    cases find_todo_by_id s.1 i with
    | none => exact h
    | some t => exact storeInv_add_todos h _ s.2

lemma storeInv_foldl (ops : List Op) :
    ∀ s : List Task × Nat, StoreInv s.1 → StoreInv (ops.foldl applyOp s).1 := by
  induction ops with
  | nil => exact fun s h => h
  | cons op rest ih => exact fun s h => ih (applyOp s op) (storeInv_applyOp h op)

/-- Every store reachable from the empty store satisfies the invariant. -/
lemma storeInv_reach (ops : List Op) : StoreInv (reach ops).1 :=
  storeInv_foldl ops ([], 0) storeInv_nil

end TodoCli
namespace TodoCli

/-! ### Structure of `add_todos` and `repeat_task` -/

lemma hasLabel_append (l1 l2 : List Task) (s : String) :
    hasLabel (l1 ++ l2) s = (hasLabel l1 s || hasLabel l2 s) :=
  List.any_append

/-- `add_todos` appends exactly one record per proposed name; the appended
records carry pairwise distinct labels, none of which was a label of the
original store. -/
lemma add_todos_decomp (todos : List Task) (names : List String) (clock : Nat) :
    ∃ fresh, (add_todos todos names clock).1 = todos ++ fresh ∧
      fresh.length = names.length ∧ (fresh.map Task.task).Nodup ∧
      ∀ s ∈ fresh.map Task.task, hasLabel todos s = false := by
  induction names generalizing todos clock with
  | nil => exact ⟨[], by simp [add_todos]⟩
  | cons name rest ih =>
    set r0 : Task :=
      ⟨maxId todos + 1, resolveName todos name, false, clock, none⟩ with hr0
    have hstep : (addOne todos name clock).1 = todos ++ [r0] := rfl
    obtain ⟨fresh, hdec, hlen, hnodup, hfreshlbl⟩ := ih (todos ++ [r0]) (clock + 1)
    refine ⟨r0 :: fresh, ?_, ?_, ?_, ?_⟩
    · show (add_todos (addOne todos name clock).1 rest (addOne todos name clock).2.1).1
        = todos ++ r0 :: fresh
      rw [hstep]
      show (add_todos (todos ++ [r0]) rest (clock + 1)).1 = todos ++ r0 :: fresh
      rw [hdec, List.append_assoc]
      rfl
    · simp [hlen]
    · rw [List.map_cons, List.nodup_cons]
      refine ⟨?_, hnodup⟩
      intro hmem
      have := hfreshlbl r0.task hmem
      rw [hasLabel_append] at this
      have h2 : hasLabel [r0] r0.task = true := by
        simp [hasLabel]
      rw [h2] at this
      simp at this
    · intro s hs
      rw [List.map_cons, List.mem_cons] at hs
      rcases hs with heq | hmem
      · subst heq
        exact resolveName_fresh todos name
      · have := hfreshlbl s hmem
        rw [hasLabel_append] at this
        exact (Bool.or_eq_false_iff.mp this).1

lemma add_todos_length (todos : List Task) (names : List String) (clock : Nat) :
    (add_todos todos names clock).1.length = todos.length + names.length := by
  obtain ⟨fresh, hdec, hlen, _, _⟩ := add_todos_decomp todos names clock
  rw [hdec, List.length_append, hlen]

/-! ### Lookup lemmas -/

lemma find_todo_by_id_eq_none {todos : List Task} {i : Int}
    (h : ∀ t ∈ todos, t.id ≠ i) : find_todo_by_id todos i = none := by
  rw [find_todo_by_id, List.find?_eq_none]
  intro t ht
  simp [h t ht]

lemma find_todo_by_id_isSome {todos : List Task} {i : Int}
    (h : ∃ t ∈ todos, t.id = i) : ∃ u, find_todo_by_id todos i = some u ∧ u.id = i := by
  rcases h with ⟨t, ht, hti⟩
  induction todos with
  | nil => cases ht
  | cons u ts ih =>
    by_cases hu : (u.id == i) = true
    · exact ⟨u, by simp [find_todo_by_id, List.find?_cons, hu], beq_iff_eq.mp hu⟩
    · rcases List.mem_cons.mp ht with heq | hmem
      · subst heq
        exact absurd (beq_iff_eq.mpr hti) hu
      · obtain ⟨v, hv, hvi⟩ := ih hmem
        refine ⟨v, ?_, hvi⟩
        rw [find_todo_by_id, List.find?_cons]
        simp only [hu]
        exact hv

/-! ### `complete_todo` / `pending_todo` on a non-matching head -/

lemma complete_todo_cons_ne {t : Task} {ts : List Task} {i : Int} {clock : Nat}
    (h : (t.id == i) = false) :
    complete_todo (t :: ts) i clock =
      ((complete_todo ts i clock).1, t :: (complete_todo ts i clock).2.1,
        (complete_todo ts i clock).2.2.1, (complete_todo ts i clock).2.2.2) := by
  have hfind : find_todo_by_id (t :: ts) i = find_todo_by_id ts i := by
    rw [find_todo_by_id, List.find?_cons]
    simp only [h]
    rfl
  unfold complete_todo
  rw [hfind]
  cases hf : find_todo_by_id ts i with
  | none => rfl
  | some u =>
    by_cases hd : u.done
    · simp [hd]
    · simp only [hd, Bool.not_false, if_true]
      rw [updateFirst, if_neg (by simp [h])]

lemma pending_todo_cons_ne {t : Task} {ts : List Task} {i : Int}
    (h : (t.id == i) = false) :
    pending_todo (t :: ts) i =
      ((pending_todo ts i).1, t :: (pending_todo ts i).2.1, (pending_todo ts i).2.2) := by
  have hfind : find_todo_by_id (t :: ts) i = find_todo_by_id ts i := by
    rw [find_todo_by_id, List.find?_cons]
    simp only [h]
    rfl
  unfold pending_todo
  rw [hfind]
  cases hf : find_todo_by_id ts i with
  | none => rfl
  | some u =>
    by_cases hd : u.done
    · simp only [hd, if_true]
      rw [updateFirst, if_neg (by simp [h])]
    · simp [hd]

/-! ### `mapM parse_int` fails when any token fails -/

lemma mapM_parse_int_none {raw : List String} {s : String} (hs : s ∈ raw)
    (h : parse_int s = none) : raw.mapM parse_int = none := by
  induction raw with
  | nil => cases hs
  | cons a l ih =>
    rw [List.mapM_cons]
    rcases List.mem_cons.mp hs with heq | hmem
    · subst heq
      rw [h]
      rfl
    · cases ha : parse_int a with
      | none => rfl
      | some v =>
        rw [ih hmem]
        rfl

end TodoCli
namespace TodoCli

/-! ### Claims -/

/-- C1 (counterexample): the claim says an ID is never reused after the
record holding it is deleted.  But from the empty store, Add "a" and Add "b"
assign IDs 1 and 2, Remove 2 deletes the record with ID 2, and the next Add
assigns ID 2 again (`max + 1` is computed from the *current* store only), so
the same ID is assigned twice in one operation sequence. -/
theorem c1_counterexample :
    (reach [Op.add ["a"], Op.add ["b"]]).1.map Task.id = [1, 2] ∧
    (reach [Op.add ["a"], Op.add ["b"], Op.remove 2]).1.map Task.id = [1] ∧
    (reach [Op.add ["a"], Op.add ["b"], Op.remove 2, Op.add ["c"]]).1.map Task.id = [1, 2] := by
  refine ⟨by decide, by decide, by decide⟩

/-- C1 (amended): each newly added record receives ID `1 + the maximum ID
currently in the store` (1 when the store is empty), IDs are pairwise
distinct within every reachable store, and every current ID is at most the
store maximum; but IDs are not globally fresh — after the record holding the
maximum ID is deleted, its ID is assigned again (see the counterexample). -/
theorem c1_amended (ops : List Op) (name : String) (clock : Nat) :
    ((reach ops).1.map Task.id).Nodup ∧
    (addOne (reach ops).1 name clock).1 =
      (reach ops).1 ++
        [⟨maxId (reach ops).1 + 1, resolveName (reach ops).1 name, false, clock, none⟩] ∧
    (∀ t ∈ (reach ops).1, t.id ≤ maxId (reach ops).1) ∧
    ((reach ops).1 = [] → maxId (reach ops).1 + 1 = 1) :=
  ⟨(storeInv_reach ops).2.1, rfl, fun _ ht => le_maxId ht, fun h => by rw [h]; rfl⟩

/-- C1 (amended) at a concrete input: after Add "a", Add "b" the IDs are
distinct and the next ID is max + 1. -/
theorem c1_amended_witness :
    ((reach [Op.add ["a"], Op.add ["b"]]).1.map Task.id).Nodup ∧
    (⟨1, "a", false, 0, none⟩ : Task) ∈ (reach [Op.add ["a"], Op.add ["b"]]).1 ∧
    (⟨1, "a", false, 0, none⟩ : Task).id ≤ maxId (reach [Op.add ["a"], Op.add ["b"]]).1 :=
  ⟨(c1_amended [Op.add ["a"], Op.add ["b"]] "c" 0).1, by decide,
    (c1_amended [Op.add ["a"], Op.add ["b"]] "c" 0).2.2.1 ⟨1, "a", false, 0, none⟩ (by decide)⟩

/-- C2 (counterexample): the claim says a non-positive ID argument to
`--remove` is rejected before the core runs, with a user-facing error and a
non-zero exit.  But `--remove` converts its arguments with plain `type=int`:
"0" is accepted (`int("0") = 0`, which is `< 1`), `remove_todo` — the core —
runs and prints its "not found" message, and the process exits 0. -/
theorem c2_counterexample :
    parse_int "0" = some 0 ∧ (0 : Int) < 1 ∧
    run_remove [] ["0"] =
      RunResult.ok false [] ["[bold red]Task with ID 0 not found.[/bold red]"] ∧
    (run_remove [] ["0"]).exitCode = 0 := by
  refine ⟨by decide, by decide, by decide, by decide⟩

/-- C2 (amended): non-integer ID/count arguments are rejected before the
core runs (argparse `type=int` usage error, exit 2, for the remove /
complete / pending branches; `valid_positive_integer` also rejects
non-positive values on the update / repeat branches, exit 1).  For remove,
complete and pending, a non-positive integer ID is *not* rejected: it
reaches the core, which reports "not found" and leaves the store unchanged
(no store with only positive IDs — in particular no reachable store — has a
record with a non-positive ID). -/
theorem c2_amended :
    (∀ todos raw_args s clock, s ∈ raw_args → parse_int s = none →
      run_remove todos raw_args = RunResult.usageError ∧
      run_complete todos raw_args clock = RunResult.usageError ∧
      run_pending todos raw_args = RunResult.usageError) ∧
    (∀ s i, valid_positive_integer s = Except.ok i → 1 ≤ i) ∧
    (∀ s i, parse_int s = some i → i < 1 →
      ∀ todos new_name raw_count clock,
        run_update todos s new_name =
          RunResult.validationError ("Value must be a positive integer, got " ++ s) ∧
        run_repeat todos s raw_count clock =
          RunResult.validationError ("Value must be a positive integer, got " ++ s)) ∧
    (∀ todos (i : Int) clock, i < 1 → (∀ t ∈ todos, 1 ≤ t.id) →
      remove_todo todos i = (false, todos, [notFoundMsg i]) ∧
      complete_todo todos i clock = (false, todos, clock, [notFoundMsg i]) ∧
      pending_todo todos i = (false, todos, [notFoundMsg i])) := by
  refine ⟨?_, ?_, ?_, ?_⟩
  · intro todos raw_args s clock hs h
    have hm := mapM_parse_int_none hs h
    exact ⟨by unfold run_remove; rw [hm], by unfold run_complete; rw [hm],
      by unfold run_pending; rw [hm]⟩
  · intro s i h
    unfold valid_positive_integer at h
    cases hp : parse_int s with
    | none => rw [hp] at h; cases h
    | some v =>
      rw [hp] at h
      dsimp only at h
      by_cases hv : v < 1
      · rw [if_pos hv] at h; cases h
      · rw [if_neg hv] at h
        cases h
        omega
  · intro s i hp hlt todos new_name raw_count clock
    have hv : valid_positive_integer s =
        Except.error ("Value must be a positive integer, got " ++ s) := by
      unfold valid_positive_integer
      rw [hp]
      dsimp only
      rw [if_pos hlt]
    exact ⟨by simp [run_update, hv], by simp [run_repeat, hv]⟩
  · intro todos i clock hlt hpos
    have hne : ∀ t ∈ todos, t.id ≠ i := by
      intro t ht heq
      have := hpos t ht
      omega
    have hf := find_todo_by_id_eq_none hne
    exact ⟨by simp [remove_todo, hf], by simp [complete_todo, hf], by simp [pending_todo, hf]⟩

/-- C2 (amended) at concrete inputs: a non-integer is a usage error, a
non-positive update ID is a validation error, and a non-positive remove ID
reaches the core and leaves the (positive-ID) store unchanged. -/
theorem c2_amended_witness :
    run_remove [] ["x"] = RunResult.usageError ∧
    run_update [] "0" "newname" =
      RunResult.validationError ("Value must be a positive integer, got " ++ "0") ∧
    remove_todo [⟨1, "a", false, 0, none⟩] 0 =
      (false, [⟨1, "a", false, 0, none⟩], [notFoundMsg 0]) :=
  ⟨(c2_amended.1 [] ["x"] "x" 0 (by decide) (by decide)).1,
   (c2_amended.2.2.1 "0" 0 (by decide) (by decide) [] "newname" "2" 0).1,
   (c2_amended.2.2.2 [⟨1, "a", false, 0, none⟩] 0 0 (by decide) (by decide)).1⟩

/-- C3: Add appends a record labelled with the proposed name when that name
is free, and otherwise with the proposed name plus the smallest unused
" (n)" suffix (n ≥ 1); the label actually appended never collides with a
label current at the time of the append. -/
theorem c3_add_label_resolution (todos : List Task) (name : String) (clock : Nat) :
    (hasLabel todos name = false →
      (addOne todos name clock).1 = todos ++ [⟨maxId todos + 1, name, false, clock, none⟩]) ∧
    (hasLabel todos name = true →
      ∃ n, 1 ≤ n ∧
        (addOne todos name clock).1 =
          todos ++ [⟨maxId todos + 1, mkSuffix name n, false, clock, none⟩] ∧
        hasLabel todos (mkSuffix name n) = false ∧
        ∀ j, 1 ≤ j → j < n → hasLabel todos (mkSuffix name j) = true) ∧
    hasLabel todos (resolveName todos name) = false := by
  refine ⟨fun h => ?_, fun h => ?_, resolveName_fresh todos name⟩
  · show todos ++ [⟨maxId todos + 1, resolveName todos name, false, clock, none⟩] = _
    rw [resolveName_eq_of_fresh h]
  · obtain ⟨n, hn1, heq, hfree, hcoll⟩ := resolveName_of_collision h
    refine ⟨n, hn1, ?_, hfree, hcoll⟩
    show todos ++ [⟨maxId todos + 1, resolveName todos name, false, clock, none⟩] = _
    rw [heq]

/-- C3 at concrete inputs: a fresh name is kept verbatim; the resolved name
for a colliding proposal is fresh. -/
theorem c3_witness :
    (addOne [⟨1, "foo", false, 0, none⟩] "bar" 3).1 =
      [⟨1, "foo", false, 0, none⟩] ++ [⟨2, "bar", false, 3, none⟩] ∧
    hasLabel [⟨1, "foo", false, 0, none⟩]
      (resolveName [⟨1, "foo", false, 0, none⟩] "foo") = false :=
  ⟨(c3_add_label_resolution [⟨1, "foo", false, 0, none⟩] "bar" 3).1 (by decide),
   (c3_add_label_resolution [⟨1, "foo", false, 0, none⟩] "foo" 0).2.2⟩

/-- C4: in every store reachable from the empty store by the nine commands,
`completed_at` is non-null exactly when `done` is true. -/
theorem c4_done_iff_completed (ops : List Op) :
    ∀ t ∈ (reach ops).1, (t.completed_at ≠ none ↔ t.done = true) :=
  (storeInv_reach ops).2.2

/-- C4 at a concrete input: the record completed by Add "a"; Complete 1. -/
theorem c4_witness :
    (⟨1, "a", true, 0, some 1⟩ : Task) ∈ (reach [Op.add ["a"], Op.complete 1]).1 ∧
    ((⟨1, "a", true, 0, some 1⟩ : Task).completed_at ≠ none ↔
      (⟨1, "a", true, 0, some 1⟩ : Task).done = true) :=
  ⟨by decide, c4_done_iff_completed [Op.add ["a"], Op.complete 1]
    ⟨1, "a", true, 0, some 1⟩ (by decide)⟩

end TodoCli
namespace TodoCli

/-- C5: CompleteAll maps every record through one completion function and
PendingAll through one clearing function, so exactly the records not already
in the target state change; all records completed by one CompleteAll call
share the single timestamp read at the start of the call; each returns false
exactly when the store had no records. -/
theorem c5_bulk_complete_pending (todos : List Task) (clock : Nat) :
    ((complete_all_todos todos clock).1 = false ↔ todos = []) ∧
    ((pending_all_todos todos).1 = false ↔ todos = []) ∧
    (complete_all_todos todos clock).2.1 =
      todos.map (fun t =>
        if !t.done then { t with done := true, completed_at := some clock } else t) ∧
    (pending_all_todos todos).2.1 =
      todos.map (fun t => { t with done := false, completed_at := none }) ∧
    (∀ t : Task,
      (if !t.done then { t with done := true, completed_at := some clock } else t) = t ↔
        t.done = true) ∧
    (∀ t : Task,
      ({ t with done := false, completed_at := none } : Task) = t ↔
        (t.done = false ∧ t.completed_at = none)) ∧
    ((∀ t ∈ todos, (t.completed_at ≠ none ↔ t.done = true)) →
      ∀ t ∈ todos,
        (({ t with done := false, completed_at := none } : Task) = t ↔ t.done = false)) := by
  refine ⟨?_, ?_, ?_, ?_, ?_, ?_, ?_⟩
  · unfold complete_all_todos
    by_cases he : todos.isEmpty
    · simp [he, List.isEmpty_iff.mp he]
    · simp only [he, if_false]
      simp [List.isEmpty_iff] at he
      simp [he]
  · unfold pending_all_todos
    by_cases he : todos.isEmpty
    · simp [he, List.isEmpty_iff.mp he]
    · simp only [he, if_false]
      simp [List.isEmpty_iff] at he
      simp [he]
  · unfold complete_all_todos
    by_cases he : todos.isEmpty
    · rw [List.isEmpty_iff.mp he]; simp
    · simp [he]
  · unfold pending_all_todos
    by_cases he : todos.isEmpty
    · rw [List.isEmpty_iff.mp he]; simp
    · simp [he]
  · intro t
    obtain ⟨tid, ttask, tdone, tcreated, tcompleted⟩ := t
    cases tdone <;> simp
  · intro t
    obtain ⟨tid, ttask, tdone, tcreated, tcompleted⟩ := t
    cases tdone <;> cases tcompleted <;> simp
  · intro hinv t ht
    have hspec := hinv t ht
    obtain ⟨tid, ttask, tdone, tcreated, tcompleted⟩ := t
    cases tdone <;> cases tcompleted <;> simp_all

/-- C5 at a concrete input: a mixed store, completing all with clock 7. -/
theorem c5_witness :
    (complete_all_todos [⟨1, "a", false, 0, none⟩, ⟨2, "b", true, 0, some 5⟩] 7).2.1 =
      [⟨1, "a", false, 0, none⟩, ⟨2, "b", true, 0, some 5⟩].map (fun t =>
        if !t.done then { t with done := true, completed_at := some 7 } else t) ∧
    (({ (⟨2, "b", true, 0, some 5⟩ : Task) with done := false, completed_at := none } : Task) =
        ⟨2, "b", true, 0, some 5⟩ ↔ (⟨2, "b", true, 0, some 5⟩ : Task).done = false) :=
  ⟨(c5_bulk_complete_pending [⟨1, "a", false, 0, none⟩, ⟨2, "b", true, 0, some 5⟩] 7).2.2.1,
   (c5_bulk_complete_pending [⟨1, "a", false, 0, none⟩, ⟨2, "b", true, 0, some 5⟩] 7).2.2.2.2.2.2
     (by decide) ⟨2, "b", true, 0, some 5⟩ (by decide)⟩

/-- C6: every ID-taking operation given an ID not present in the store
reports the "not found" message, returns false, and leaves the store's
sequence of records unchanged. -/
theorem c6_not_found_no_mutation (todos : List Task) (i : Int) (clock : Nat)
    (name : String) (count : Nat) (h : ∀ t ∈ todos, t.id ≠ i) :
    remove_todo todos i = (false, todos, [notFoundMsg i]) ∧
    complete_todo todos i clock = (false, todos, clock, [notFoundMsg i]) ∧
    pending_todo todos i = (false, todos, [notFoundMsg i]) ∧
    update_todo todos i name = (false, todos, [notFoundMsg i]) ∧
    repeat_task todos i count clock = (false, todos, clock, [notFoundMsg i]) := by
  have hf := find_todo_by_id_eq_none h
  exact ⟨by simp [remove_todo, hf], by simp [complete_todo, hf], by simp [pending_todo, hf],
    by simp [update_todo, hf], by simp [repeat_task, hf]⟩

/-- C6 at a concrete input (the spec's Complete(id=99) scenario). -/
theorem c6_witness :
    remove_todo [⟨1, "a", false, 0, none⟩] 99 =
      (false, [⟨1, "a", false, 0, none⟩], [notFoundMsg 99]) ∧
    complete_todo [⟨1, "a", false, 0, none⟩] 99 0 =
      (false, [⟨1, "a", false, 0, none⟩], 0, [notFoundMsg 99]) ∧
    pending_todo [⟨1, "a", false, 0, none⟩] 99 =
      (false, [⟨1, "a", false, 0, none⟩], [notFoundMsg 99]) ∧
    update_todo [⟨1, "a", false, 0, none⟩] 99 "n" =
      (false, [⟨1, "a", false, 0, none⟩], [notFoundMsg 99]) ∧
    repeat_task [⟨1, "a", false, 0, none⟩] 99 2 0 =
      (false, [⟨1, "a", false, 0, none⟩], 0, [notFoundMsg 99]) :=
  c6_not_found_no_mutation [⟨1, "a", false, 0, none⟩] 99 0 "n" 2 (by decide)

end TodoCli
namespace TodoCli

/-! ### The Complete-then-Pending round trip -/

lemma find_updateFirst {i : Int} {f : Task → Task} (hf : ∀ t, (f t).id = t.id)
    (todos : List Task) (orig : Task) (h : find_todo_by_id todos i = some orig) :
    find_todo_by_id (updateFirst todos i f) i = some (f orig) := by
  induction todos with
  | nil => exact Option.noConfusion h
  | cons t ts ih =>
    by_cases hid : (t.id == i) = true
    · rw [find_todo_by_id,
        @List.find?_cons_of_pos _ (fun todo => todo.id == i) t ts hid] at h
      injection h with heq
      subst heq
      rw [updateFirst, if_pos hid, find_todo_by_id]
      refine List.find?_cons_of_pos _ ?_
      show ((f t).id == i) = true
      rw [hf t]
      exact hid
    · rw [find_todo_by_id,
        @List.find?_cons_of_neg _ (fun todo => todo.id == i) t ts hid] at h
      rw [updateFirst, if_neg hid, find_todo_by_id]
      rw [@List.find?_cons_of_neg _ (fun todo => todo.id == i) t (updateFirst ts i f) hid]
      exact ih h

lemma complete_pending_core (todos : List Task) (i : Int) (clock : Nat)
    (h : ∃ t ∈ todos, t.id = i) :
    (complete_todo todos i clock).1 = true ∧
    (pending_todo (complete_todo todos i clock).2.1 i).1 = true ∧
    (pending_todo (complete_todo todos i clock).2.1 i).2.1 =
      updateFirst todos i (fun u => { u with done := false, completed_at := none }) := by
  induction todos with
  | nil =>
    obtain ⟨t, ht, _⟩ := h
    cases ht
  | cons t ts ih =>
    by_cases hid : (t.id == i) = true
    · have hfind : find_todo_by_id (t :: ts) i = some t := by
        rw [find_todo_by_id]
        exact List.find?_cons_of_pos _ hid
      by_cases hd : t.done
      · -- already completed: Complete is a no-op, Pending then clears
        have hc : complete_todo (t :: ts) i clock =
            (true, t :: ts, clock,
              ["[bold yellow]Task \"" ++ t.task ++ "\" is already completed.[/bold yellow]"]) := by
          unfold complete_todo
          rw [hfind]
          simp [hd]
        rw [hc]
        have hp : pending_todo (t :: ts) i =
            (true, updateFirst (t :: ts) i
                (fun u => { u with done := false, completed_at := none }),
              ["[bold green]Task \"" ++ t.task ++ "\" marked as pending.[/bold green]"]) := by
          unfold pending_todo
          rw [hfind]
          simp [hd]
        rw [hp]
        exact ⟨rfl, rfl, rfl⟩
      · -- pending: Complete sets it, Pending clears it again
        have hbd : (!t.done) = true := by simp [hd]
        have hc : complete_todo (t :: ts) i clock =
            (true, { t with done := true, completed_at := some clock } :: ts, clock + 1,
              ["[bold green]Task \"" ++ t.task ++ "\" marked as completed.[/bold green]"]) := by
          unfold complete_todo
          rw [hfind]
          simp only [hbd, if_true]
          rw [updateFirst, if_pos hid]
        rw [hc]
        have hfind2 : find_todo_by_id ({ t with done := true, completed_at := some clock } :: ts) i =
            some { t with done := true, completed_at := some clock } := by
          rw [find_todo_by_id]
          exact List.find?_cons_of_pos _ hid
        have hp : pending_todo ({ t with done := true, completed_at := some clock } :: ts) i =
            (true, { t with done := false, completed_at := none } :: ts,
              ["[bold green]Task \"" ++ t.task ++ "\" marked as pending.[/bold green]"]) := by
          unfold pending_todo
          rw [hfind2]
          simp only [if_true]
          rw [updateFirst, if_pos hid]
        rw [hp]
        refine ⟨rfl, rfl, ?_⟩
        rw [updateFirst, if_pos hid]
    · have hex : ∃ u ∈ ts, u.id = i := by
        obtain ⟨u, hu, hui⟩ := h
        rcases List.mem_cons.mp hu with heq | hmem
        · subst heq
          exact absurd (beq_iff_eq.mpr hui) hid
        · exact ⟨u, hmem, hui⟩
      obtain ⟨ih1, ih2, ih3⟩ := ih hex
      have hbeq : (t.id == i) = false := by
        cases hb : (t.id == i) with
        | true => exact absurd hb hid
        | false => rfl
      rw [complete_todo_cons_ne hbeq]
      refine ⟨ih1, ?_, ?_⟩
      · rw [pending_todo_cons_ne hbeq]
        exact ih2
      · rw [pending_todo_cons_ne hbeq]
        show t :: (pending_todo (complete_todo ts i clock).2.1 i).2.1 = _
        rw [updateFirst, if_neg (by simp [hbeq])]
        rw [ih3]

/-- C7: for a record present in the store, Complete on its ID followed by
Pending on the same ID succeeds (both return true) and leaves the store
equal to the original with that record's `done` reset to false and its
`completed_at` reset to null — whatever the record's initial completion
state; every other record and the order are untouched. -/
theorem c7_complete_pending_round_trip (todos : List Task) (i : Int) (clock : Nat)
    (h : ∃ t ∈ todos, t.id = i) :
    (complete_todo todos i clock).1 = true ∧
    (pending_todo (complete_todo todos i clock).2.1 i).1 = true ∧
    (pending_todo (complete_todo todos i clock).2.1 i).2.1 =
      updateFirst todos i (fun u => { u with done := false, completed_at := none }) ∧
    ∀ orig, find_todo_by_id todos i = some orig →
      find_todo_by_id (pending_todo (complete_todo todos i clock).2.1 i).2.1 i =
        some { orig with done := false, completed_at := none } := by
  obtain ⟨h1, h2, h3⟩ := complete_pending_core todos i clock h
  refine ⟨h1, h2, h3, fun orig horig => ?_⟩
  rw [h3]
  exact @find_updateFirst i (fun u => { u with done := false, completed_at := none })
    (fun t => rfl) todos orig horig

/-- C7 at a concrete input: one initially completed and one initially
pending record; the round trip resets the targeted record either way. -/
theorem c7_witness :
    (complete_todo [⟨1, "a", true, 0, some 3⟩, ⟨2, "b", false, 0, none⟩] 1 9).1 = true ∧
    (pending_todo (complete_todo [⟨1, "a", true, 0, some 3⟩, ⟨2, "b", false, 0, none⟩] 1 9).2.1
      1).1 = true ∧
    (pending_todo (complete_todo [⟨1, "a", true, 0, some 3⟩, ⟨2, "b", false, 0, none⟩] 1 9).2.1
      1).2.1 =
      updateFirst [⟨1, "a", true, 0, some 3⟩, ⟨2, "b", false, 0, none⟩] 1
        (fun u => { u with done := false, completed_at := none }) ∧
    ∀ orig,
      find_todo_by_id [⟨1, "a", true, 0, some 3⟩, ⟨2, "b", false, 0, none⟩] 1 = some orig →
      find_todo_by_id
        (pending_todo (complete_todo [⟨1, "a", true, 0, some 3⟩, ⟨2, "b", false, 0, none⟩] 1
          9).2.1 1).2.1 1 = some { orig with done := false, completed_at := none } :=
  c7_complete_pending_round_trip [⟨1, "a", true, 0, some 3⟩, ⟨2, "b", false, 0, none⟩] 1 9
    ⟨⟨1, "a", true, 0, some 3⟩, by decide, by decide⟩

end TodoCli
namespace TodoCli

/-- C8: when the source ID exists, Repeat(id, count) appends exactly `count`
new records, obtained by running the source task's current label through the
same Add (including its duplicate-label resolution, so the appended labels
are pairwise distinct and none collides with a label current at call time),
and returns true; when the source ID does not exist it returns false and
leaves the store unchanged. -/
theorem c8_repeat_task (todos : List Task) (i : Int) (count clock : Nat) :
    ((∀ t ∈ todos, t.id ≠ i) →
      repeat_task todos i count clock = (false, todos, clock, [notFoundMsg i])) ∧
    (∀ orig, find_todo_by_id todos i = some orig →
      (repeat_task todos i count clock).1 = true ∧
      (repeat_task todos i count clock).2.1 =
        (add_todos todos (List.replicate count orig.task) clock).1 ∧
      (repeat_task todos i count clock).2.1.length = todos.length + count ∧
      ∃ fresh, (repeat_task todos i count clock).2.1 = todos ++ fresh ∧
        fresh.length = count ∧ (fresh.map Task.task).Nodup ∧
        ∀ s ∈ fresh.map Task.task, hasLabel todos s = false) := by
  constructor
  · intro h
    have hf := find_todo_by_id_eq_none h
    simp [repeat_task, hf]
  · intro orig horig
    have hb : (repeat_task todos i count clock).1 = true := by
      unfold repeat_task
      rw [horig]
    have hstore : (repeat_task todos i count clock).2.1 =
        (add_todos todos (List.replicate count orig.task) clock).1 := by
      unfold repeat_task
      rw [horig]
    refine ⟨hb, hstore, ?_, ?_⟩
    · rw [hstore, add_todos_length, List.length_replicate]
    · obtain ⟨fresh, hdec, hlen, hnodup, hlbl⟩ :=
        add_todos_decomp todos (List.replicate count orig.task) clock
      exact ⟨fresh, by rw [hstore, hdec], by rw [hlen, List.length_replicate],
        hnodup, hlbl⟩

/-- C8 at a concrete input (the spec's scenario): repeating the only task
"foo" three times yields "foo (1)", "foo (2)", "foo (3)". -/
theorem c8_witness :
    (repeat_task [⟨1, "foo", false, 0, none⟩] 1 3 10).1 = true ∧
    (repeat_task [⟨1, "foo", false, 0, none⟩] 1 3 10).2.1.length = 1 + 3 ∧
    (repeat_task [⟨1, "foo", false, 0, none⟩] 1 3 10).2.1.map Task.task =
      ["foo", "foo (1)", "foo (2)", "foo (3)"] ∧
    repeat_task [⟨1, "foo", false, 0, none⟩] 99 1 0 =
      (false, [⟨1, "foo", false, 0, none⟩], 0, [notFoundMsg 99]) :=
  ⟨((c8_repeat_task [⟨1, "foo", false, 0, none⟩] 1 3 10).2 ⟨1, "foo", false, 0, none⟩
      (by decide)).1,
   ((c8_repeat_task [⟨1, "foo", false, 0, none⟩] 1 3 10).2 ⟨1, "foo", false, 0, none⟩
      (by decide)).2.2.1,
   by decide,
   (c8_repeat_task [⟨1, "foo", false, 0, none⟩] 99 1 0).1 (by decide)⟩

/-- C10: Add never checks labels for emptiness — anywhere, the CLI `--add`
branch included: adding the empty-string label appends one ordinary record
(label resolved exactly like any other label: "" itself when free, otherwise
"" with a " (n)" suffix), carrying the next ID, `done=false` and
`completed_at=null`, reports the usual per-task success line, and the branch
completes with exit status 0. -/
theorem c10_empty_label_accepted (todos : List Task) (clock : Nat) :
    run_add todos [""] clock =
      RunResult.ok true
        (todos ++ [⟨maxId todos + 1, resolveName todos "", false, clock, none⟩])
        ["[bold green]Added task:[/bold green] \"" ++ resolveName todos "" ++ "\""] ∧
    (run_add todos [""] clock).exitCode = 0 ∧
    (hasLabel todos "" = false → resolveName todos "" = "") ∧
    (hasLabel todos "" = true →
      ∃ n, 1 ≤ n ∧ resolveName todos "" = mkSuffix "" n ∧
        hasLabel todos (mkSuffix "" n) = false) := by
  refine ⟨?_, rfl, fun h => resolveName_eq_of_fresh h, fun h => ?_⟩
  · show RunResult.ok true (add_todos todos [""] clock).1 (add_todos todos [""] clock).2.2 = _
    simp [add_todos, addOne]
  · obtain ⟨n, hn1, heq, hfree, _⟩ := resolveName_of_collision h
    exact ⟨n, hn1, heq, hfree⟩

/-- C10 at concrete inputs: the empty store accepts the empty label as is;
a store already holding "" disambiguates it to " (1)". -/
theorem c10_witness :
    run_add [] [""] 0 =
      RunResult.ok true [⟨1, resolveName [] "", false, 0, none⟩]
        ["[bold green]Added task:[/bold green] \"" ++ resolveName [] "" ++ "\""] ∧
    resolveName [] "" = "" :=
  ⟨by simpa using (c10_empty_label_accepted [] 0).1,
   (c10_empty_label_accepted [] 0).2.2.1 (by decide)⟩

end TodoCli
namespace TodoCli

/-! ### Listing and search -/

/-- The status filter as a per-record predicate (keep on `none`/unknown,
completed-only, pending-only). -/
def statusKeep (filter_status : Option String) (t : Task) : Bool :=
  if filter_status == some "completed" then t.done
  else if filter_status == some "pending" then !t.done
  else true

/-- The search filter as a per-record predicate: with a search term present,
keep records whose label contains the term case-insensitively; keep
everything otherwise. -/
def searchKeep (search_term : Option String) (t : Task) : Bool :=
  match search_term with
  | some term => strContains (strLower t.task) (strLower term)
  | none => true

lemma strContains_empty (s : String) : strContains s "" = true := by
  simp only [strContains, decide_eq_true_eq]
  exact List.nil_infix

lemma filter_status_eq (todos : List Task) (fs : Option String) :
    (if fs == some "completed" then todos.filter (fun todo => todo.done)
     else if fs == some "pending" then todos.filter (fun todo => !todo.done)
     else todos) = todos.filter (statusKeep fs) := by
  by_cases h1 : (fs == some "completed") = true
  · rw [if_pos h1]
    exact (List.filter_congr (fun x _ => by simp [statusKeep, h1])).symm
  · by_cases h2 : (fs == some "pending") = true
    · rw [if_neg h1, if_pos h2]
      exact (List.filter_congr (fun x _ => by simp [statusKeep, h1, h2])).symm
    · rw [if_neg h1, if_neg h2]
      have hq : todos.filter (statusKeep fs) = todos.filter (fun _ => true) :=
        List.filter_congr (fun x _ => by simp [statusKeep, h1, h2])
      rw [hq, List.filter_true]

/-- C9: List renders exactly the records passing the status filter and then
the case-insensitive substring search filter, composed as one filter over
the store in sequence order; it answers with the "list is empty" message
exactly when the store has no records at all, and with the
"no tasks found" message exactly when records exist but the composed
filters keep none. -/
theorem c9_list_filter_and_messages (todos : List Task) (fs st : Option String) :
    list_todos todos fs st =
      (if todos = [] then ListResult.emptyList
       else if todos.filter (fun t => statusKeep fs t && searchKeep st t) = [] then
         ListResult.noTasksFound
       else ListResult.table
         (todos.filter (fun t => statusKeep fs t && searchKeep st t))) := by
  by_cases he : todos = []
  · subst he
    rfl
  · have he2 : todos.isEmpty = false := by
      cases todos with
      | nil => exact absurd rfl he
      | cons a l => rfl
    rw [if_neg he]
    unfold list_todos
    rw [he2]
    simp only [Bool.false_eq_true, if_false]
    rw [filter_status_eq todos fs]
    have hfin : ∀ sel : List Task,
        (if sel.isEmpty = true then ListResult.noTasksFound else ListResult.table sel) =
          (if sel = [] then ListResult.noTasksFound else ListResult.table sel) := by
      intro sel
      cases sel with
      | nil => rfl
      | cons a l =>
        have h1 : (a :: l).isEmpty = false := rfl
        rw [h1]
        rw [if_neg (by simp : ¬(a :: l = []))]
        simp
    cases st with
    | none =>
      dsimp only
      rw [hfin]
      have hr : todos.filter (fun t => statusKeep fs t && searchKeep none t) =
          todos.filter (statusKeep fs) :=
        List.filter_congr (fun x _ => by simp [searchKeep])
      rw [hr]
    | some term =>
      by_cases ht : term = ""
      · subst ht
        dsimp only
        rw [if_neg (show ¬(("" : String) ≠ "") from by simp)]
        rw [hfin]
        have hr : todos.filter (fun t => statusKeep fs t && searchKeep (some "") t) =
            todos.filter (statusKeep fs) :=
          List.filter_congr (fun x _ => by
            simp [searchKeep, show strLower "" = "" from rfl, strContains_empty])
        rw [hr]
      · dsimp only
        rw [if_pos ht]
        rw [List.filter_filter]
        rw [hfin]
        have hr : todos.filter
            (fun a => strContains (strLower a.task) (strLower term) && statusKeep fs a) =
            todos.filter (fun t => statusKeep fs t && searchKeep (some term) t) :=
          List.filter_congr (fun x _ => by simp [searchKeep, Bool.and_comm])
        rw [hr]

end TodoCli
